import Mathlib

/-!
Verification of the Postgres upgrade orchestrator in
`cmd/server/shared/postgres.go` (functions `maybePostgresProcFile`,
`maybeUpgradePostgres`, `hostMountPoint`).

The Go code is shallowly embedded: every external effect (file reads and
writes, directory creation, Docker API calls, shelled-out commands) is
resolved through an explicit environment record `Env`, and a run produces a
result together with a linear trace of the effects it performed, in program
order.  Pure helpers (`hostMountPoint`, path manipulation, the status-file
decoding) are translated directly as Lean functions.
-/

deriving instance DecidableEq for Except

namespace Postgres

/-- The ASCII whitespace characters Go `unicode.IsSpace` recognizes. -/
def goIsSpace (c : Char) : Bool :=
  c = ' ' || c = '\t' || c = '\n' || c = '\x0b' || c = '\x0c' || c = '\r'

/-- Models Go `strings.TrimSpace` / `bytes.TrimSpace` for the ASCII values
this program stores: drop leading and trailing whitespace. -/
def trimSpace (s : String) : String :=
  ⟨((s.data.dropWhile goIsSpace).reverse.dropWhile goIsSpace).reverse⟩

/-- Split a character list at every occurrence of `sep`, like Go
`strings.Split`: the empty list yields one empty group. -/
def splitOnChar (sep : Char) : List Char → List (List Char)
  | [] => [[]]
  | c :: cs =>
    match splitOnChar sep cs with
    | [] => if c = sep then [[], []] else [[c]]
    | g :: gs => if c = sep then [] :: g :: gs else (c :: g) :: gs

/-- Interleave `sep` between the groups, the inverse of `splitOnChar`. -/
def joinSep (sep : Char) : List (List Char) → List Char
  | [] => []
  | [g] => g
  | g :: gs => g ++ sep :: joinSep sep gs

/-- Models Go `strings.SplitN(s, ":", 2)`: at most two pieces, the second
piece keeping any further colons.  A string without a colon yields a
one-element list. -/
def splitN2Colon (s : String) : List String :=
  match splitOnChar ':' s.data with
  | [] => [s]
  | [x] => [⟨x⟩]
  | x :: rest => [⟨x⟩, ⟨joinSep ':' rest⟩]

/-- Models Go `filepath.Dir` for the cleaned, slash-separated paths this
program works with (no trailing slash, no `.` or `..` components). -/
def pathDir (p : String) : String :=
  ⟨joinSep '/' (splitOnChar '/' p.data).dropLast⟩

/-- Models Go `filepath.Base` for the same class of cleaned paths. -/
def pathBase (p : String) : String :=
  match (splitOnChar '/' p.data).getLast? with
  | some l => ⟨l⟩
  | none => p

/-- Models Go `filepath.Join` of two cleaned components. -/
def joinPath (a b : String) : String := a ++ "/" ++ b

/-- A mount entry of the inspected container (`c.Mounts` in the Go code):
the host-side `Source` and container-side `Destination` of one mount. -/
structure MountPoint where
  Source : String
  Destination : String
  deriving DecidableEq, Repr

/-- The part of Docker's `ContainerInspect` answer that `hostMountPoint`
reads: the configured bind strings (`c.HostConfig.Binds`, each of the form
`src:dst`) and the mounts list (`c.Mounts`). -/
structure ContainerInfo where
  Binds : List String
  Mounts : List MountPoint
  deriving DecidableEq, Repr

/-- The body of the loop over `c.HostConfig.Binds` (postgres.go lines
256-260): split the bind string around its first colon and, when the
container-side destination equals `path`, yield the host-side source. -/
def bindSource (path bind : String) : Option String :=
  match splitN2Colon bind with
  | [src, dst] => if dst = path then some src else none
  | _ => none

/-- The body of the loop over `c.Mounts` (postgres.go lines 262-266). -/
def mountSource (path : String) (m : MountPoint) : Option String :=
  if m.Destination = path then some m.Source else none

/-- The pure core of Go `hostMountPoint` (postgres.go lines 250-269), after
the container-inspect call has been resolved to a `ContainerInfo`: scan the
configured binds for one whose destination equals `path` and return its
source; otherwise scan the mounts list the same way; `none` models the
`couldn't find host mountpoint` error. -/
def hostMountPoint (c : ContainerInfo) (path : String) : Option String :=
  match c.Binds.findSome? (bindSource path) with
  | some src => some src
  | none => c.Mounts.findSome? (mountSource path)

/-- One observable effect of a run, in program order. A `writeFile` event is
recorded only when the write succeeds (a failed `ioutil.WriteFile` leaves the
run with an error and no recorded write). -/
inductive Event where
  | readFile (p : String)
  | mkdirAll (p : String)
  | writeFile (p c : String)
  | logPrint (m : String)
  | inspect (id : String)
  | imagePull (img : String)
  | containerCreate (name : String) (binds : List String)
  | containerStart (id : String)
  | containerWait (id : String)
  | containerLogs (id : String)
  | execCmd (argv : List String)
  | removeAll (p : String)
  | setDefaultEnv (n v : String)
  deriving DecidableEq, Repr

/-- Result of `ioutil.ReadFile` on the status file: the file may be absent
(`os.IsNotExist`), readable with some contents, or fail with another error. -/
inductive ReadResult where
  | notExist
  | ok (contents : String)
  | rerr
  deriving DecidableEq, Repr

/-- Outcome of the `select` on `ContainerWait`'s two channels: either the
error channel fires (carrying a nil or non-nil error), or the status channel
fires with the container's exit code. -/
inductive WaitOutcome where
  | werr (isNonNil : Bool)
  | wstatus (exitCode : Int)
  deriving DecidableEq, Repr

/-- The distinct error returns of `maybeUpgradePostgres`, one per
`return errors.…` site in the Go code. -/
inductive UpgradeError where
  | versionUnknown
  | containerIDFailed
  | dockerClientFailed
  | inspectFailed
  | hostPathNotFound
  | mkdirFailed
  | statusReadFailed
  | interruptedUpgrade
  | writeStartedFailed
  | pullFailed
  | pullCopyFailed
  | createFailed
  | startFailed
  | upgradeContainerFailed
  | logsFailed
  | logsCopyFailed
  | finalizeFailed
  | writeDoneFailed
  deriving DecidableEq, Repr

/-- The environment oracle: the outcome of every external operation a run of
`maybeUpgradePostgres` may perform, in the order the code performs them. -/
structure Env where
  /-- `ioutil.ReadFile(filepath.Join(path, "PG_VERSION"))`. -/
  pgVersionRead : Except Unit String
  /-- `containerID()` (parsed from `/proc/self/cgroup`). -/
  containerIDRes : Except Unit String
  /-- whether `docker.NewClientWithOpts` succeeds. -/
  dockerClientOk : Bool
  /-- `cli.ContainerInspect` on our own container id. -/
  inspectRes : Except Unit ContainerInfo
  /-- whether `os.MkdirAll(upgradeDir, 0755)` succeeds. -/
  mkdirOk : Bool
  /-- `ioutil.ReadFile(statusFile)`. -/
  statusRead : ReadResult
  /-- whether `ioutil.WriteFile(statusFile, []byte("started"), 0755)` succeeds. -/
  writeStartedOk : Bool
  /-- whether `cli.ImagePull` succeeds. -/
  pullOk : Bool
  /-- whether `io.Copy` of the pull output succeeds. -/
  pullCopyOk : Bool
  /-- `cli.ContainerCreate`: the new container's id, or an error. -/
  createRes : Except Unit String
  /-- whether `cli.ContainerStart` succeeds. -/
  startOk : Bool
  /-- the `select` over `cli.ContainerWait`'s channels. -/
  waitOutcome : WaitOutcome
  /-- whether `cli.ContainerLogs` succeeds. -/
  logsOk : Bool
  /-- whether `stdcopy.StdCopy` of the logs succeeds. -/
  logsCopyOk : Bool
  /-- whether a given shelled-out command exits zero. -/
  execOk : List String → Bool
  /-- whether `ioutil.WriteFile(statusFile, []byte("done"), 0755)` succeeds. -/
  writeDoneOk : Bool
  /-- `time.Now().Unix()`, used only in the helper container's name. -/
  nowUnix : Int

/-- Modelled from the spec: the `execer` helper used by this file is not
among the inspected sources; per the spec's description of the privileged
executor it runs a command sequence, capturing combined output, failing
fast on the first non-zero exit (commands after the first failure are not
run).  Returns the trace of commands actually run and whether a command
failed. -/
def runExecer (ok : List String → Bool) : List (List String) → List Event × Bool
  | [] => ([], false)
  | c :: rest =>
    if ok c then
      let (evs, bad) := runExecer ok rest
      (Event.execCmd c :: evs, bad)
    else ([Event.execCmd c], true)

/-- Decoding of the status-file read (postgres.go lines 132-138): an absent
file leaves `bs` nil, i.e. empty contents; any other read error is fatal;
otherwise the raw contents are kept, to be trimmed at the use site. -/
def readStatus : ReadResult → Except Unit String
  | .notExist => .ok ""
  | .ok contents => .ok contents
  | .rerr => .error ()

/-- The ledger value a read of the status file yields: the trimmed contents,
with an absent file reading as the empty string. -/
def ledgerValue (r : ReadResult) : Except Unit String :=
  (readStatus r).map trimSpace

/-- The remediation command text printed when the interrupted upgrade is
detected and `oldVersion == newVersion` (postgres.go lines 143-148). -/
def remediationSame (hostPath newVersion oldVersion hostUpgradeDir : String) : String :=
  "$ mv " ++ hostPath ++ " " ++ (hostPath ++ "-" ++ newVersion ++ ".bak") ++
  "\n$ mv " ++ (hostPath ++ "-" ++ oldVersion) ++ " " ++ hostPath ++
  "\n$ rm -rf " ++ hostUpgradeDir

/-- The remediation command text printed when the interrupted upgrade is
detected and the versions differ (postgres.go lines 150-154). -/
def remediationDiff (hostPath newVersion hostUpgradeDir : String) : String :=
  "$ mv " ++ (hostPath ++ "-" ++ newVersion) ++ " " ++
  (hostPath ++ "-" ++ newVersion ++ ".bak") ++
  "\n$ rm -rf " ++ hostUpgradeDir

/-- The four commands run by the finalize `execer` (postgres.go lines
228-232): swap the data directories, fix ownership, run the optimize
script. -/
def finalizeCmds (path oldVersion newVersion : String) : List (List String) :=
  [["mv", path, path ++ "-" ++ oldVersion],
   ["mv", path ++ "-" ++ newVersion, path],
   ["chown", "-R", "postgres", path],
   ["su-exec", "postgres", "/postgres-optimize.sh", path]]

/-- The helper image name (postgres.go line 177). -/
def upgradeImage (oldVersion newVersion : String) : String :=
  "tianon/postgres-upgrade:" ++ oldVersion ++ "-to-" ++ newVersion

/-- The helper container's bind mounts (postgres.go lines 186-195). -/
def upgradeBinds (hostUpgradeDir hostPath oldVersion newVersion : String) : List String :=
  [hostUpgradeDir ++ ":/tmp/upgrade",
   hostPath ++ ":/var/lib/postgresql/" ++ oldVersion ++ "/data",
   hostPath ++ "-" ++ newVersion ++ ":/var/lib/postgresql/" ++ newVersion ++ "/data"]

/-- The scratch workspace directory, one level above the data directory,
named from the version pair (postgres.go line 126). -/
def upgradeDirOf (path oldVersion newVersion : String) : String :=
  joinPath (pathDir path) ("." ++ oldVersion ++ "-to-" ++ newVersion ++ "-upgrade")

/-- The ledger file inside the scratch workspace (postgres.go line 128). -/
def statusFileOf (path oldVersion newVersion : String) : String :=
  joinPath (upgradeDirOf path oldVersion newVersion) "status"

/-- The host-side path of the data directory (postgres.go line 137). -/
def hostPathOf (hostDataDir path : String) : String :=
  joinPath hostDataDir (pathBase path)

/-- The host-side path of the scratch workspace (postgres.go line 127). -/
def hostUpgradeDirOf (hostDataDir path oldVersion newVersion : String) : String :=
  joinPath hostDataDir (pathBase (upgradeDirOf path oldVersion newVersion))

/-- Tail of the run once the container wait has completed without an error:
fetch and copy the logs, run the finalize commands through the `execer`,
write the ledger `done` (postgres.go lines 217-245).  Returns the result and
the events this tail itself performs. -/
def afterWait (env : Env) (path oldVersion newVersion statusFile cid : String) :
    Except UpgradeError Unit × List Event :=
  let tr := [Event.containerLogs cid]
  if !env.logsOk then (.error .logsFailed, tr)
  else if !env.logsCopyOk then (.error .logsCopyFailed, tr)
  else
    let (evs, bad) := runExecer env.execOk (finalizeCmds path oldVersion newVersion)
    let tr := tr ++ evs
    if bad then (.error .finalizeFailed, tr)
    else if env.writeDoneOk then
      (.ok (), tr ++ [Event.writeFile statusFile "done"])
    else (.error .writeDoneFailed, tr)

/-- Tail of the run from the point the helper container has been started:
the `select` over the wait channels (postgres.go lines 208-215), then
`afterWait`.  Returns the result and the events this tail itself performs;
the caller appends them to its trace. -/
def afterStart (env : Env) (path oldVersion newVersion statusFile cid : String) :
    Except UpgradeError Unit × List Event :=
  match env.waitOutcome with
  | .werr true => (.error .upgradeContainerFailed, [Event.containerWait cid])
  | _ =>
    let res := afterWait env path oldVersion newVersion statusFile cid
    (res.1, [Event.containerWait cid] ++ res.2)

/-- The body of Go `maybeUpgradePostgres(path, newVersion)` (postgres.go
lines 102-246), with every external operation resolved through `env`.
Returns the function's result and the trace of effects performed. -/
def maybeUpgradePostgres (env : Env) (path newVersion : String) :
    Except UpgradeError Unit × List Event :=
  let tr := [Event.readFile (joinPath path "PG_VERSION")]
  match env.pgVersionRead with
  | .error _ => (.error .versionUnknown, tr)
  | .ok bs =>
    match env.containerIDRes with
    | .error _ => (.error .containerIDFailed, tr)
    | .ok cid =>
      if !env.dockerClientOk then (.error .dockerClientFailed, tr)
      else
        let tr := tr ++ [Event.inspect cid]
        match env.inspectRes with
        | .error _ => (.error .inspectFailed, tr)
        | .ok cinfo =>
          match hostMountPoint cinfo (pathDir path) with
          | none => (.error .hostPathNotFound, tr)
          | some hostDataDir =>
            let oldVersion := trimSpace bs
            let upgradeDir := upgradeDirOf path oldVersion newVersion
            let hostUpgradeDir := hostUpgradeDirOf hostDataDir path oldVersion newVersion
            let statusFile := statusFileOf path oldVersion newVersion
            let tr := tr ++ [Event.mkdirAll upgradeDir]
            if !env.mkdirOk then (.error .mkdirFailed, tr)
            else
              let tr := tr ++ [Event.readFile statusFile]
              match ledgerValue env.statusRead with
              | .error _ => (.error .statusReadFailed, tr)
              | .ok status =>
                let hostPath := hostPathOf hostDataDir path
                if status = "started" then
                  let tr := tr ++
                    [Event.logPrint "✱ Sourcegraph was previously interrupted while upgrading its internal database.",
                     Event.logPrint "✱ To try again, start the container after running these commands (safe):",
                     Event.logPrint (if oldVersion = newVersion then
                         remediationSame hostPath newVersion oldVersion hostUpgradeDir
                       else
                         remediationDiff hostPath newVersion hostUpgradeDir)]
                  (.error .interruptedUpgrade, tr)
                else if oldVersion = newVersion then (.ok (), tr)
                else
                  let tr := tr ++
                    [Event.logPrint "✱ Sourcegraph is upgrading its internal database. Please don't interrupt this operation."]
                  if !env.writeStartedOk then (.error .writeStartedFailed, tr)
                  else
                    let tr := tr ++ [Event.writeFile statusFile "started"]
                    let img := upgradeImage oldVersion newVersion
                    let tr := tr ++ [Event.imagePull img]
                    if !env.pullOk then (.error .pullFailed, tr)
                    else if !env.pullCopyOk then (.error .pullCopyFailed, tr)
                    else
                      let name := "sourcegraph-postgres-upgrade-" ++ toString env.nowUnix
                      let binds := upgradeBinds hostUpgradeDir hostPath oldVersion newVersion
                      let tr := tr ++ [Event.containerCreate name binds]
                      match env.createRes with
                      | .error _ => (.error .createFailed, tr)
                      | .ok cid2 =>
                        let tr := tr ++ [Event.containerStart cid2]
                        if !env.startOk then (.error .startFailed, tr)
                        else
                          let res := afterStart env path oldVersion newVersion statusFile cid2
                          (res.1, tr ++ res.2)

/-- Result of `os.Stat` on the data directory: present, absent
(`os.IsNotExist`), or another stat error. -/
inductive StatResult where
  | present
  | notExist
  | serr
  deriving DecidableEq, Repr

/-- The distinct error returns of `maybePostgresProcFile`. -/
inductive InitError where
  | setupFailed
  | statFailed
  | initFailed
  | chownFailed
  | upgradeFailed (e : UpgradeError)
  deriving DecidableEq, Repr

/-- The environment oracle for `maybePostgresProcFile`. -/
structure InitEnv where
  /-- `os.Getenv("PGHOST")`. -/
  pghost : String
  /-- `os.Getenv("PGDATASOURCE")`. -/
  pgdatasource : String
  /-- `os.Getenv("DATA_DIR")`. -/
  dataDir : String
  /-- `os.Stat(path)` on the postgresql data directory. -/
  statRes : StatResult
  /-- whether a given shelled-out command exits zero. -/
  execOk : List String → Bool
  /-- `os.Getenv("PG_VERSION")`. -/
  pgVersionEnvVar : String
  /-- the oracle for the nested `maybeUpgradePostgres` call. -/
  upgradeEnv : Env

/-- The commands preparing `/run/postgresql` (postgres.go lines 33-34). -/
def runDirCmds : List (List String) :=
  [["mkdir", "-p", "/run/postgresql"],
   ["chown", "-R", "postgres", "/run/postgresql"]]

/-- The database-initialization command sequence (postgres.go lines 55-62). -/
def initCmds (path : String) : List (List String) :=
  [["mkdir", "-p", path],
   ["chown", "postgres", path],
   ["su-exec", "postgres", "initdb", "-D", path, "--nosync"],
   ["su-exec", "postgres", "pg_ctl", "-D", path, "-o -c listen_addresses=127.0.0.1", "-l", "/tmp/pgsql.log", "-w", "start"],
   ["su-exec", "postgres", "createdb", "sourcegraph"],
   ["su-exec", "postgres", "pg_ctl", "-D", path, "-m", "fast", "-l", "/tmp/pgsql.log", "-w", "stop"]]

/-- The procfile line returned on success (postgres.go line 97). -/
def procfileLine (path : String) : String :=
  "postgres: su-exec postgres sh -c 'postgres -c listen_addresses=127.0.0.1 -D " ++
  path ++ "' 2>&1 | grep -v 'database system was shut down' | grep -v 'MultiXact member wraparound' | grep -v 'database system is ready' | grep -v 'autovacuum launcher started' | grep -v 'the database system is starting up'"

/-- The `SetDefaultEnv` calls made before returning (postgres.go lines 92-95). -/
def defaultEnvEvents : List Event :=
  [Event.setDefaultEnv "PGHOST" "127.0.0.1",
   Event.setDefaultEnv "PGUSER" "postgres",
   Event.setDefaultEnv "PGDATABASE" "sourcegraph",
   Event.setDefaultEnv "PGSSLMODE" "disable"]

/-- Common tail of `maybePostgresProcFile`: set the default environment
variables and return the procfile line. -/
def procfileTail (path : String) (tr : List Event) : Except InitError String × List Event :=
  (.ok (procfileLine path), tr ++ defaultEnvEvents)

/-- The body of Go `maybePostgresProcFile()` (postgres.go lines 24-98), with
every external operation resolved through `env`.  Returns the procfile line
(empty when Postgres is externally configured) and the trace of effects. -/
def maybePostgresProcFile (env : InitEnv) : Except InitError String × List Event :=
  if env.pghost ≠ "" ∨ env.pgdatasource ≠ "" then (.ok "", [])
  else
    let (evs, bad) := runExecer env.execOk runDirCmds
    if bad then (.error .setupFailed, evs)
    else
      let path := joinPath env.dataDir "postgresql"
      match env.statRes with
      | .serr => (.error .statFailed, evs)
      | .notExist =>
        let (evs2, bad2) := runExecer env.execOk (initCmds path)
        let tr := evs ++ evs2
        if bad2 then (.error .initFailed, tr ++ [Event.removeAll path])
        else procfileTail path tr
      | .present =>
        let (evs2, bad2) := runExecer env.execOk [["chown", "-R", "postgres", path]]
        let tr := evs ++ evs2
        if bad2 then (.error .chownFailed, tr)
        else
          let version := if trimSpace env.pgVersionEnvVar = "" then "11" else trimSpace env.pgVersionEnvVar
          let (res, utr) := maybeUpgradePostgres env.upgradeEnv path version
          match res with
          | .error e => (.error (.upgradeFailed e), tr ++ utr)
          | .ok _ => procfileTail path (tr ++ utr)

/-- Is the event a shelled-out command (the only way this code mutates the
data directory)? -/
def isExecEvent : Event → Bool
  | .execCmd _ => true
  | _ => false

/-- Is the event a write of a file? -/
def isWriteEvent : Event → Bool
  | .writeFile _ _ => true
  | _ => false

/-- Is the event a helper-container operation (pull, create or start)? -/
def isContainerOp : Event → Bool
  | .imagePull _ => true
  | .containerCreate _ _ => true
  | .containerStart _ => true
  | _ => false

/-- The contents the file `f` holds after the trace's writes have been
performed, `none` when the trace never wrote `f`. -/
def ledgerAfter (f : String) (tr : List Event) : Option String :=
  tr.foldl (fun acc e =>
    match e with
    | .writeFile p c => if p = f then some c else acc
    | _ => acc) none

theorem runExecer_mem {ok : List String → Bool} :
    ∀ {cmds : List (List String)} {e : Event}, e ∈ (runExecer ok cmds).1 →
      ∃ c ∈ cmds, e = Event.execCmd c := by
  intro cmds
  induction cmds with
  | nil => intro e h; simp [runExecer] at h
  | cons c rest ih =>
    intro e h
    simp only [runExecer] at h
    by_cases hc : ok c = true
    · rw [if_pos hc] at h
      rcases List.mem_cons.mp h with rfl | h2
      · exact ⟨c, List.mem_cons_self .., rfl⟩
      · obtain ⟨c', hc', rfl⟩ := ih h2
        exact ⟨c', List.mem_cons_of_mem _ hc', rfl⟩
    · rw [if_neg hc] at h
      simp only [List.mem_singleton] at h
      exact ⟨c, List.mem_cons_self .., h⟩

theorem runExecer_not_exec {ok : List String → Bool} {cmds : List (List String)}
    {e : Event} (he : e ∈ (runExecer ok cmds).1) : isExecEvent e = true := by
  obtain ⟨c, -, rfl⟩ := runExecer_mem he
  rfl

theorem runExecer_ok {ok : List String → Bool} :
    ∀ {cmds : List (List String)}, (runExecer ok cmds).2 = false →
      (runExecer ok cmds).1 = cmds.map Event.execCmd := by
  intro cmds
  induction cmds with
  | nil => intro; rfl
  | cons c rest ih =>
    intro h
    simp only [runExecer] at h ⊢
    by_cases hc : ok c = true
    · rw [if_pos hc] at h ⊢
      simp only [List.map_cons]
      simp only [List.cons.injEq, true_and]
      exact ih h
    · rw [if_neg hc] at h
      cases h

theorem ledgerAfter_append (f : String) (t1 t2 : List Event) :
    ledgerAfter f (t1 ++ t2) =
      t2.foldl (fun acc e =>
        match e with
        | .writeFile p c => if p = f then some c else acc
        | _ => acc) (ledgerAfter f t1) := by
  simp [ledgerAfter, List.foldl_append]

theorem ledgerAfter_no_write {f : String} {t2 : List Event}
    (h : ∀ e ∈ t2, isWriteEvent e = false) (t1 : List Event) :
    ledgerAfter f (t1 ++ t2) = ledgerAfter f t1 := by
  rw [ledgerAfter_append]
  induction t2 generalizing t1 with
  | nil => rfl
  | cons e rest ih =>
    have he : isWriteEvent e = false := h e (List.mem_cons_self ..)
    have hrest : ∀ x ∈ rest, isWriteEvent x = false :=
      fun x hx => h x (List.mem_cons_of_mem _ hx)
    cases e with
    | writeFile p c => simp [isWriteEvent] at he
    | _ =>
      simp only [List.foldl_cons]
      have := ih hrest t1   -- peel one non-write step
      simpa [ledgerAfter_append] using this

/-- If `w` occurs in `t1`, no event of `t1` satisfies `p`, and some event `e`
with `p e` splits `t1 ++ t2` as `pre ++ e :: post`, then `w` already lies in
`pre`: events satisfying `p` can only sit at or beyond the end of `t1`. -/
theorem mem_pre_of_split {α : Type} {p : α → Bool} {w : α} :
    ∀ {t1 t2 pre post : List α} {e : α},
      (∀ x ∈ t1, p x = false) → w ∈ t1 →
      t1 ++ t2 = pre ++ e :: post → p e = true → w ∈ pre := by
  intro t1 t2 pre post e h1 hw heq hpe
  rcases List.append_eq_append_iff.mp heq with ⟨a, ha, _⟩ | ⟨c', hc', hd⟩
  · exact ha ▸ List.mem_append_left a hw
  · cases c' with
    | nil => simpa [hc'] using hw
    | cons x xs =>
      have hx : x ∈ t1 := by
        rw [hc']; exact List.mem_append_right _ (List.mem_cons_self ..)
      have : x = e := by
        have := congrArg List.head? hd
        simpa using this.symm
      rw [this] at hx
      rw [h1 e hx] at hpe
      cases hpe

/-- A concrete environment in which every external operation succeeds: the
data directory `/d/pg` is at version `9.6`, the container's bind `"/h:/d"`
resolves the host mount point, no status file exists yet, and every Docker
and shell step succeeds. -/
def envAll : Env :=
  { pgVersionRead := .ok "9.6\n"
    containerIDRes := .ok "c0"
    dockerClientOk := true
    inspectRes := .ok ⟨["/h:/d"], []⟩
    mkdirOk := true
    statusRead := .notExist
    writeStartedOk := true
    pullOk := true
    pullCopyOk := true
    createRes := .ok "n1"
    startOk := true
    waitOutcome := .wstatus 0
    logsOk := true
    logsCopyOk := true
    execOk := fun _ => true
    writeDoneOk := true
    nowUnix := 0 }

/-- Like `envAll` but the persisted status file reads `started` (with
whitespace around it, exercising the trim). -/
def envStarted : Env := { envAll with statusRead := .ok " started\n" }

/-- Like `envAll` but the data directory is already at the target version. -/
def envNoop : Env := { envAll with pgVersionRead := .ok "11\n" }

/-- C1: whenever the persisted ledger file reads `started` after trimming
(and the run reaches the ledger check), `maybeUpgradePostgres` fails with
the distinguished interrupted-upgrade error and its trace contains no
container pull/create/start, no file write (in particular no ledger write),
and no shelled-out command (so the data directory is never renamed or
otherwise modified). -/
theorem interrupted_gate_refuses_and_mutates_nothing
    (env : Env) (path newVersion bs cid host : String) (cinfo : ContainerInfo)
    (h1 : env.pgVersionRead = .ok bs)
    (h2 : env.containerIDRes = .ok cid)
    (h3 : env.dockerClientOk = true)
    (h4 : env.inspectRes = .ok cinfo)
    (h5 : hostMountPoint cinfo (pathDir path) = some host)
    (h6 : env.mkdirOk = true)
    (h7 : ledgerValue env.statusRead = .ok "started") :
    (maybeUpgradePostgres env path newVersion).1 = .error .interruptedUpgrade ∧
    ∀ e ∈ (maybeUpgradePostgres env path newVersion).2,
      isContainerOp e = false ∧ isWriteEvent e = false ∧ isExecEvent e = false := by
  simp only [maybeUpgradePostgres, h1, h2, h3, h4, h5, h6, h7]
  simp only [Bool.not_true, Bool.false_eq_true, if_false, reduceIte]
  refine ⟨trivial, ?_⟩
  intro e he
  cases e <;> simp_all [isContainerOp, isWriteEvent, isExecEvent]

/-- C1 witness: the gate fires on a concrete environment whose status file
holds `" started\n"`. -/
theorem interrupted_gate_refuses_and_mutates_nothing_witness :
    (maybeUpgradePostgres envStarted "/d/pg" "11").1 = .error .interruptedUpgrade ∧
    ∀ e ∈ (maybeUpgradePostgres envStarted "/d/pg" "11").2,
      isContainerOp e = false ∧ isWriteEvent e = false ∧ isExecEvent e = false :=
  interrupted_gate_refuses_and_mutates_nothing envStarted "/d/pg" "11" "9.6\n" "c0" "/h"
    ⟨["/h:/d"], []⟩ rfl rfl rfl rfl (by decide) rfl (by decide)

/-- C5: when the trimmed version marker equals the runtime's expected
version and the ledger does not read `started`, `maybeUpgradePostgres`
returns success and its trace contains no file write (no ledger write), no
container pull/create/start, and no shelled-out command. -/
theorem equal_versions_noop
    (env : Env) (path newVersion bs cid host s : String) (cinfo : ContainerInfo)
    (h1 : env.pgVersionRead = .ok bs)
    (h2 : env.containerIDRes = .ok cid)
    (h3 : env.dockerClientOk = true)
    (h4 : env.inspectRes = .ok cinfo)
    (h5 : hostMountPoint cinfo (pathDir path) = some host)
    (h6 : env.mkdirOk = true)
    (h7 : ledgerValue env.statusRead = .ok s)
    (h8 : s ≠ "started")
    (h9 : trimSpace bs = newVersion) :
    (maybeUpgradePostgres env path newVersion).1 = .ok () ∧
    ∀ e ∈ (maybeUpgradePostgres env path newVersion).2,
      isWriteEvent e = false ∧ isContainerOp e = false ∧ isExecEvent e = false := by
  simp only [maybeUpgradePostgres, h1, h2, h3, h4, h5, h6, h7, h8, h9]
  simp only [Bool.not_true, Bool.false_eq_true, if_false, reduceIte, if_true]
  refine ⟨trivial, ?_⟩
  intro e he
  cases e <;> simp_all [isContainerOp, isWriteEvent, isExecEvent]

/-- C5 witness: the no-op path on a concrete environment already at version
`11` with no status file. -/
theorem equal_versions_noop_witness :
    (maybeUpgradePostgres envNoop "/d/pg" "11").1 = .ok () ∧
    ∀ e ∈ (maybeUpgradePostgres envNoop "/d/pg" "11").2,
      isWriteEvent e = false ∧ isContainerOp e = false ∧ isExecEvent e = false :=
  equal_versions_noop envNoop "/d/pg" "11" "11\n" "c0" "/h" "" ⟨["/h:/d"], []⟩
    rfl rfl rfl rfl (by decide) rfl (by decide) (by decide) (by decide)

/-- C8: on the interrupted-upgrade error the run prints the remediation
command text chosen by whether the old and new versions are equal (the
two-`mv`-plus-`rm` sequence over the shared base path) or differ (the
single-`mv`-plus-`rm` sequence), and the trace contains no shelled-out
command: the printed commands are never executed. -/
theorem remediation_printed_never_executed
    (env : Env) (path newVersion bs cid host : String) (cinfo : ContainerInfo)
    (h1 : env.pgVersionRead = .ok bs)
    (h2 : env.containerIDRes = .ok cid)
    (h3 : env.dockerClientOk = true)
    (h4 : env.inspectRes = .ok cinfo)
    (h5 : hostMountPoint cinfo (pathDir path) = some host)
    (h6 : env.mkdirOk = true)
    (h7 : ledgerValue env.statusRead = .ok "started") :
    (maybeUpgradePostgres env path newVersion).1 = .error .interruptedUpgrade ∧
    (trimSpace bs = newVersion →
      Event.logPrint (remediationSame (hostPathOf host path) newVersion (trimSpace bs)
          (hostUpgradeDirOf host path (trimSpace bs) newVersion)) ∈
        (maybeUpgradePostgres env path newVersion).2) ∧
    (trimSpace bs ≠ newVersion →
      Event.logPrint (remediationDiff (hostPathOf host path) newVersion
          (hostUpgradeDirOf host path (trimSpace bs) newVersion)) ∈
        (maybeUpgradePostgres env path newVersion).2) ∧
    ∀ e ∈ (maybeUpgradePostgres env path newVersion).2, isExecEvent e = false := by
  simp only [maybeUpgradePostgres, h1, h2, h3, h4, h5, h6, h7]
  simp only [Bool.not_true, Bool.false_eq_true, if_false, reduceIte]
  refine ⟨trivial, ?_, ?_, ?_⟩
  · intro hv
    simp [hv]
  · intro hv
    simp [hv]
  · intro e he
    cases e <;> simp_all [isExecEvent]

/-- C8 witness: the differing-versions remediation text on a concrete
interrupted environment. -/
theorem remediation_printed_never_executed_witness :
    (maybeUpgradePostgres envStarted "/d/pg" "11").1 = .error .interruptedUpgrade ∧
    Event.logPrint (remediationDiff (hostPathOf "/h" "/d/pg") "11"
        (hostUpgradeDirOf "/h" "/d/pg" "9.6" "11")) ∈
      (maybeUpgradePostgres envStarted "/d/pg" "11").2 ∧
    ∀ e ∈ (maybeUpgradePostgres envStarted "/d/pg" "11").2, isExecEvent e = false := by
  obtain ⟨hres, -, hdiff, hexec⟩ :=
    remediation_printed_never_executed envStarted "/d/pg" "11" "9.6\n" "c0" "/h"
      ⟨["/h:/d"], []⟩ rfl rfl rfl rfl (by decide) rfl (by decide)
  exact ⟨hres, by simpa using hdiff (by decide), hexec⟩

/-- Like `envAll` but the blocking container wait delivers a non-zero exit
status on the status channel. -/
def envExit1 : Env := { envAll with waitOutcome := .wstatus 1 }

/-- Like `envAll` but the wait's error channel delivers a non-nil error. -/
def envWaitErr : Env := { envAll with waitOutcome := .werr true }

/-- Like `envAll` but the data directory is at the target version and the
status file holds an unrecognized value. -/
def envGarbage : Env :=
  { envAll with pgVersionRead := .ok "11\n", statusRead := .ok "garbage" }

/-- C2 counterexample: with every step succeeding and the container wait
delivering exit status `1` on the status channel, the run succeeds (no
`UpgradeContainerFailed`), the old data directory is renamed, and the
ledger ends reading `done`, not `started`: the exit status is ignored. -/
theorem nonzero_exit_ignored_counterexample :
    envExit1.waitOutcome = .wstatus 1 ∧
    (maybeUpgradePostgres envExit1 "/d/pg" "11").1 = .ok () ∧
    Event.execCmd ["mv", "/d/pg", "/d/pg-9.6"] ∈
      (maybeUpgradePostgres envExit1 "/d/pg" "11").2 ∧
    ledgerAfter "/d/.9.6-to-11-upgrade/status"
      (maybeUpgradePostgres envExit1 "/d/pg" "11").2 = some "done" := by
  decide

/-- C2 amended: when the wait's error channel delivers a non-nil error, the
run fails with `upgradeContainerFailed`, the container logs are never
fetched, the ledger still reads `started`, and no shelled-out command runs
(the old data directory is never renamed). -/
theorem wait_error_fails_without_rename
    (env : Env) (path newVersion bs cid host s cid2 : String) (cinfo : ContainerInfo)
    (h1 : env.pgVersionRead = .ok bs)
    (h2 : env.containerIDRes = .ok cid)
    (h3 : env.dockerClientOk = true)
    (h4 : env.inspectRes = .ok cinfo)
    (h5 : hostMountPoint cinfo (pathDir path) = some host)
    (h6 : env.mkdirOk = true)
    (h7 : ledgerValue env.statusRead = .ok s)
    (h8 : s ≠ "started")
    (h9 : trimSpace bs ≠ newVersion)
    (h10 : env.writeStartedOk = true)
    (h11 : env.pullOk = true)
    (h12 : env.pullCopyOk = true)
    (h13 : env.createRes = .ok cid2)
    (h14 : env.startOk = true)
    (h15 : env.waitOutcome = .werr true) :
    (maybeUpgradePostgres env path newVersion).1 = .error .upgradeContainerFailed ∧
    Event.containerLogs cid2 ∉ (maybeUpgradePostgres env path newVersion).2 ∧
    ledgerAfter (statusFileOf path (trimSpace bs) newVersion)
      (maybeUpgradePostgres env path newVersion).2 = some "started" ∧
    ∀ e ∈ (maybeUpgradePostgres env path newVersion).2, isExecEvent e = false := by
  simp only [maybeUpgradePostgres, afterStart, h1, h2, h3, h4, h5, h6, h7, h8, h9,
    h10, h11, h12, h13, h14, h15]
  simp only [Bool.not_true, Bool.false_eq_true, if_false, reduceIte]
  refine ⟨trivial, ?_, ?_, ?_⟩
  · simp
  · simp [ledgerAfter]
  · intro e he
    cases e <;> simp_all [isExecEvent]

/-- C2 amended witness: the wait-error path on a concrete environment. -/
theorem wait_error_fails_without_rename_witness :
    (maybeUpgradePostgres envWaitErr "/d/pg" "11").1 = .error .upgradeContainerFailed ∧
    Event.containerLogs "n1" ∉ (maybeUpgradePostgres envWaitErr "/d/pg" "11").2 ∧
    ledgerAfter (statusFileOf "/d/pg" "9.6" "11")
      (maybeUpgradePostgres envWaitErr "/d/pg" "11").2 = some "started" ∧
    ∀ e ∈ (maybeUpgradePostgres envWaitErr "/d/pg" "11").2, isExecEvent e = false :=
  wait_error_fails_without_rename envWaitErr "/d/pg" "11" "9.6\n" "c0" "/h" "" "n1"
    ⟨["/h:/d"], []⟩ rfl rfl rfl rfl (by decide) rfl (by decide) (by decide) (by decide)
    rfl rfl rfl rfl rfl rfl

/-- Helper: the post-wait tail never produces the interrupted-upgrade
error. -/
theorem afterWait_no_interrupted (env : Env)
    (path oldVersion newVersion statusFile cid : String) :
    (afterWait env path oldVersion newVersion statusFile cid).1 ≠
      .error .interruptedUpgrade := by
  simp only [afterWait]
  split
  · simp
  · split
    · simp
    · split
      · simp
      · split <;> simp

/-- Helper: the tail of the run never produces the interrupted-upgrade
error; that error is reserved to the recovery gate. -/
theorem afterStart_no_interrupted (env : Env)
    (path oldVersion newVersion statusFile cid : String) :
    (afterStart env path oldVersion newVersion statusFile cid).1 ≠
      .error .interruptedUpgrade := by
  simp only [afterStart]
  split
  · simp
  · exact afterWait_no_interrupted env path oldVersion newVersion statusFile cid

/-- C4 counterexample: `"garbage"` is a non-empty persisted status value
that is neither `started` nor `done`, yet the run proceeds and succeeds:
there is no `InvalidLedgerState` failure in the code. -/
theorem invalid_ledger_accepted_counterexample :
    envGarbage.statusRead = .ok "garbage" ∧
    trimSpace "garbage" ≠ "" ∧ trimSpace "garbage" ≠ "started" ∧
    trimSpace "garbage" ≠ "done" ∧
    (maybeUpgradePostgres envGarbage "/d/pg" "11").1 = .ok () := by
  decide

/-- C4 amended: reading the ledger yields the empty value when the status
file is absent and the trimmed file contents otherwise; any trimmed value
other than `started` — recognized or not — is not rejected: the run never
fails with the interrupted-upgrade error on it, and no other validation
error exists. -/
theorem ledger_read_trims_and_accepts_anything :
    ledgerValue .notExist = .ok "" ∧
    (∀ s, ledgerValue (.ok s) = .ok (trimSpace s)) ∧
    (∀ (env : Env) (path newVersion s : String), env.statusRead = .ok s →
      trimSpace s ≠ "started" →
      (maybeUpgradePostgres env path newVersion).1 ≠ .error .interruptedUpgrade) := by
  refine ⟨rfl, fun s => rfl, ?_⟩
  intro env path newVersion s hs htrim
  simp only [maybeUpgradePostgres, hs, ledgerValue, readStatus, Except.map]
  split
  · simp
  split
  · simp
  split
  · simp
  split
  · simp
  split
  · simp
  split
  · simp
  split
  · simp
  split
  · simp
  split
  · simp
  split
  · simp
  split
  · simp
  split
  · simp
  exact afterStart_no_interrupted _ _ _ _ _ _

/-- C4 amended witness: the third conjunct applied to the concrete
`envGarbage` run. -/
theorem ledger_read_trims_and_accepts_anything_witness :
    (maybeUpgradePostgres envGarbage "/d/pg" "11").1 ≠ .error .interruptedUpgrade :=
  ledger_read_trims_and_accepts_anything.2.2 envGarbage "/d/pg" "11" "garbage"
    rfl (by decide)

theorem findSome?_some {α β : Type} {f : α → Option β} :
    ∀ {l : List α} {b : β}, l.findSome? f = some b → ∃ a ∈ l, f a = some b := by
  intro l
  induction l with
  | nil => intro b h; simp [List.findSome?] at h
  | cons a l ih =>
    intro b h
    rw [List.findSome?_cons] at h
    cases hfa : f a with
    | some c =>
      rw [hfa] at h
      simp only [Option.some.injEq] at h
      exact ⟨a, List.mem_cons_self .., by rw [hfa, h]⟩
    | none =>
      rw [hfa] at h
      obtain ⟨x, hx, hfx⟩ := ih h
      exact ⟨x, List.mem_cons_of_mem _ hx, hfx⟩

theorem findSome?_none {α β : Type} {f : α → Option β} :
    ∀ {l : List α}, (∀ a ∈ l, f a = none) → l.findSome? f = none := by
  intro l
  induction l with
  | nil => intro; rfl
  | cons a l ih =>
    intro h
    rw [List.findSome?_cons, h a (List.mem_cons_self ..)]
    exact ih fun x hx => h x (List.mem_cons_of_mem _ hx)

theorem findSome?_none_all {α β : Type} {f : α → Option β} :
    ∀ {l : List α}, l.findSome? f = none → ∀ a ∈ l, f a = none := by
  intro l
  induction l with
  | nil => intro _ a ha; cases ha
  | cons a l ih =>
    intro h x hx
    rw [List.findSome?_cons] at h
    cases hfa : f a with
    | some c =>
      rw [hfa] at h
      cases h
    | none =>
      rw [hfa] at h
      rcases List.mem_cons.mp hx with rfl | hx2
      · exact hfa
      · exact ih h x hx2

theorem bindSource_some {path bind src : String} (h : bindSource path bind = some src) :
    splitN2Colon bind = [src, path] := by
  unfold bindSource at h
  split at h
  next s d heq =>
    by_cases hd : d = path
    · rw [if_pos hd] at h
      injection h with h'
      rw [heq, h', hd]
    · rw [if_neg hd] at h
      cases h
  next => cases h

theorem mountSource_some {path : String} {m : MountPoint} {src : String}
    (h : mountSource path m = some src) : m.Destination = path ∧ m.Source = src := by
  unfold mountSource at h
  by_cases hd : m.Destination = path
  · rw [if_pos hd] at h
    injection h with h'
    exact ⟨hd, h'⟩
  · rw [if_neg hd] at h
    cases h

theorem bindSource_none {path bind : String}
    (h : ∀ src, splitN2Colon bind ≠ [src, path]) : bindSource path bind = none := by
  unfold bindSource
  split
  next s d heq =>
    rw [if_neg]
    intro hd
    exact h s (by rw [heq, hd])
  next => rfl

/-- C7: `hostMountPoint` returns the host-side source of an entry whose
container-side destination exactly equals the requested path, scanning the
configured binds first and the mounts list second; a path with no exact
destination match — including a sub-path of a bound directory, as in the
`/data/sub` example — yields the not-found error (`none`). -/
theorem hostMountPoint_exact_destination_only :
    hostMountPoint ⟨["/host/data:/data"], []⟩ "/data" = some "/host/data" ∧
    hostMountPoint ⟨["/host/data:/data"], []⟩ "/data/sub" = none ∧
    (∀ (c : ContainerInfo) (path src : String), hostMountPoint c path = some src →
      (∃ b ∈ c.Binds, splitN2Colon b = [src, path]) ∨
      (∃ m ∈ c.Mounts, m.Destination = path ∧ m.Source = src)) ∧
    (∀ (c : ContainerInfo) (path : String),
      (∀ b ∈ c.Binds, ∀ src, splitN2Colon b ≠ [src, path]) →
      (∀ m ∈ c.Mounts, m.Destination ≠ path) →
      hostMountPoint c path = none) ∧
    (∀ (c : ContainerInfo) (path b src : String), b ∈ c.Binds →
      splitN2Colon b = [src, path] →
      ∃ src2, hostMountPoint c path = some src2 ∧
        ∃ b2 ∈ c.Binds, splitN2Colon b2 = [src2, path]) := by
  refine ⟨by decide, by decide, ?_, ?_, ?_⟩
  · intro c path src h
    unfold hostMountPoint at h
    split at h
    next heq =>
      injection h with h'
      subst h'
      obtain ⟨b, hb, hbs⟩ := findSome?_some heq
      exact .inl ⟨b, hb, bindSource_some hbs⟩
    next =>
      obtain ⟨m, hm, hms⟩ := findSome?_some h
      obtain ⟨hd, hsrc⟩ := mountSource_some hms
      exact .inr ⟨m, hm, hd, hsrc⟩
  · intro c path hb hm
    unfold hostMountPoint
    have h1 : c.Binds.findSome? (bindSource path) = none :=
      findSome?_none fun b hbm => bindSource_none (hb b hbm)
    rw [h1]
    exact findSome?_none fun m hmm => by
      unfold mountSource
      rw [if_neg (hm m hmm)]
  · intro c path b src hbmem hsp
    have hbs : bindSource path b = some src := by simp [bindSource, hsp]
    cases hfs : c.Binds.findSome? (bindSource path) with
    | none =>
      rw [findSome?_none_all hfs b hbmem] at hbs
      cases hbs
    | some v =>
      refine ⟨v, by unfold hostMountPoint; rw [hfs], ?_⟩
      obtain ⟨b2, hb2, hfb2⟩ := findSome?_some hfs
      exact ⟨b2, hb2, bindSource_some hfb2⟩

/-- C7 witness: the soundness conjunct applied to the concrete single-bind
container of the spec's example. -/
theorem hostMountPoint_exact_destination_only_witness :
    (∃ b ∈ (ContainerInfo.mk ["/host/data:/data"] []).Binds,
      splitN2Colon b = ["/host/data", "/data"]) ∨
    (∃ m ∈ (ContainerInfo.mk ["/host/data:/data"] []).Mounts,
      m.Destination = "/data" ∧ m.Source = "/host/data") :=
  hostMountPoint_exact_destination_only.2.2.1 ⟨["/host/data:/data"], []⟩
    "/data" "/host/data" (by decide)

@[simp]
theorem writeFile_not_mem_runExecer {ok : List String → Bool}
    {cmds : List (List String)} {p c : String} :
    Event.writeFile p c ∉ (runExecer ok cmds).1 := fun h => by
  obtain ⟨x, -, hx⟩ := runExecer_mem h
  exact Event.noConfusion hx

/-- Helper: the only file write the post-wait tail performs is the `done`
ledger write. -/
theorem afterWait_writes {env : Env} {path old new sf cid : String}
    {p c : String}
    (h : Event.writeFile p c ∈ (afterWait env path old new sf cid).2) :
    p = sf ∧ c = "done" := by
  simp only [afterWait] at h
  split at h
  · simp at h
  split at h
  · simp at h
  split at h
  · simp at h
  split at h
  · simp at h
    exact h
  · simp at h

/-- Helper: the only file write the tail of the run performs is the `done`
ledger write. -/
theorem afterStart_writes {env : Env} {path old new sf cid : String}
    {p c : String}
    (h : Event.writeFile p c ∈ (afterStart env path old new sf cid).2) :
    p = sf ∧ c = "done" := by
  simp only [afterStart] at h
  split at h
  · simp at h
  · simp only [List.mem_append] at h
    rcases h with h | h
    · simp at h
    · exact afterWait_writes h

/-- C9: the ledger round-trip: the value the run writes for each phase
(`started`, `done` — and these literals are the only contents any run ever
writes to any file) reads back as itself after the trim, and an absent
status file reads as the empty value. -/
theorem ledger_roundtrip :
    ledgerValue (.ok "started") = .ok "started" ∧
    ledgerValue (.ok "done") = .ok "done" ∧
    ledgerValue .notExist = .ok "" ∧
    (∀ (env : Env) (path newVersion p c : String),
      Event.writeFile p c ∈ (maybeUpgradePostgres env path newVersion).2 →
      c = "started" ∨ c = "done") := by
  refine ⟨by decide, by decide, rfl, ?_⟩
  intro env path newVersion p c h
  simp only [maybeUpgradePostgres] at h
  split at h
  · simp at h
  split at h
  · simp at h
  split at h
  · simp at h
  split at h
  · simp at h
  split at h
  · simp at h
  split at h
  · simp at h
  split at h
  · simp at h
  split at h
  · simp at h
  split at h
  · simp at h
  split at h
  · simp at h
  split at h
  · simp at h
    exact .inl h.2
  split at h
  · simp at h
    exact .inl h.2
  split at h
  · simp at h
    exact .inl h.2
  split at h
  · simp at h
    exact .inl h.2
  simp only [List.mem_append] at h
  rcases h with h | h
  · simp at h
    exact .inl h.2
  · exact .inr (afterStart_writes h).2

/-- C9 witness: the write-values conjunct applied to the successful concrete
run, whose trace contains the `done` write. -/
theorem ledger_roundtrip_witness :
    ("done" : String) = "started" ∨ ("done" : String) = "done" :=
  ledger_roundtrip.2.2.2 envAll "/d/pg" "11" "/d/.9.6-to-11-upgrade/status" "done"
    (by decide)

/-- A concrete initialization environment: Postgres not externally
configured, no data directory yet, and every `su-exec` command (notably
`initdb`) failing. -/
def initEnvFail : InitEnv :=
  { pghost := ""
    pgdatasource := ""
    dataDir := "/d"
    statRes := .notExist
    execOk := fun argv => argv.head? != some "su-exec"
    pgVersionEnvVar := ""
    upgradeEnv := envAll }

/-- C10: when Postgres is not externally configured, the data directory is
absent, the `/run/postgresql` setup succeeds and the database-initialization
command sequence fails at some step, `maybePostgresProcFile` removes the
freshly created data directory (the removal is the final effect of the run)
and returns the initialization error. -/
theorem failed_init_removes_data_dir (env : InitEnv)
    (h1 : env.pghost = "") (h2 : env.pgdatasource = "")
    (h3 : (runExecer env.execOk runDirCmds).2 = false)
    (h4 : env.statRes = .notExist)
    (h5 : (runExecer env.execOk (initCmds (joinPath env.dataDir "postgresql"))).2 = true) :
    (maybePostgresProcFile env).1 = .error .initFailed ∧
    (maybePostgresProcFile env).2.getLast? =
      some (Event.removeAll (joinPath env.dataDir "postgresql")) := by
  simp only [maybePostgresProcFile, h1, h2, h3, h4, h5]
  simp [List.getLast?_concat]

/-- C10 witness: the cleanup on a concrete environment whose `initdb` step
fails. -/
theorem failed_init_removes_data_dir_witness :
    (maybePostgresProcFile initEnvFail).1 = .error .initFailed ∧
    (maybePostgresProcFile initEnvFail).2.getLast? =
      some (Event.removeAll (joinPath "/d" "postgresql")) :=
  failed_init_removes_data_dir initEnvFail rfl rfl (by decide) rfl (by decide)

/-- The event `w` occurs in `tr` and strictly precedes every event
satisfying `pred`: however `tr` is cut as `pre ++ e :: post` with `pred e`,
the event `w` already lies in `pre`. -/
def PredBefore (pred : Event → Bool) (w : Event) (tr : List Event) : Prop :=
  (∀ pre e post, tr = pre ++ e :: post → pred e = true → w ∈ pre) ∧ w ∈ tr

theorem predBefore_of_clean {pred : Event → Bool} {w : Event} {tr : List Event}
    (hclean : ∀ x ∈ tr, pred x = false) (hw : w ∈ tr) : PredBefore pred w tr := by
  refine ⟨?_, hw⟩
  intro pre e post heq hpe
  have he : e ∈ tr := by
    rw [heq]
    exact List.mem_append_right _ (List.mem_cons_self ..)
  rw [hclean e he] at hpe
  cases hpe

theorem predBefore_append {pred : Event → Bool} {w : Event} {t1 : List Event}
    (t2 : List Event) (h : PredBefore pred w t1) : PredBefore pred w (t1 ++ t2) := by
  obtain ⟨h1, hw⟩ := h
  refine ⟨?_, List.mem_append_left _ hw⟩
  intro pre e post heq hpe
  rcases List.append_eq_append_iff.mp heq with ⟨a, ha, _⟩ | ⟨c, hc, hd⟩
  · exact ha ▸ List.mem_append_left a hw
  · cases c with
    | nil => simpa [hc] using hw
    | cons x xs =>
      have hx : e = x := by
        have := congrArg List.head? hd
        simpa using this
      exact h1 pre x xs (by simpa using hc) (hx ▸ hpe)

theorem no_pred_split {pred : Event → Bool} {tr pre post : List Event} {e : Event}
    (hclean : ∀ x ∈ tr, pred x = false) (heq : tr = pre ++ e :: post)
    (hpe : pred e = true) : False := by
  have he : e ∈ tr := by
    rw [heq]
    exact List.mem_append_right _ (List.mem_cons_self ..)
  rw [hclean e he] at hpe
  cases hpe

/-- Helper: a successful post-wait tail ran every finalize command and ended
with the `done` ledger write. -/
theorem afterWait_ok_shape {env : Env} {path old new sf cid : String}
    (h : (afterWait env path old new sf cid).1 = .ok ()) :
    (runExecer env.execOk (finalizeCmds path old new)).2 = false ∧
    (afterWait env path old new sf cid).2 =
      ([Event.containerLogs cid] ++ (finalizeCmds path old new).map Event.execCmd) ++
        [Event.writeFile sf "done"] := by
  simp only [afterWait] at h
  split at h
  next h1 => simp at h
  next h1 =>
    split at h
    next h2 => simp at h
    next h2 =>
      split at h
      next h3 => simp at h
      next h3 =>
        split at h
        next h4 =>
          have hbad : (runExecer env.execOk (finalizeCmds path old new)).2 = false :=
            Bool.eq_false_iff.mpr h3
          refine ⟨hbad, ?_⟩
          simp only [afterWait]
          rw [if_neg h1, if_neg h2, if_neg h3, if_pos h4, runExecer_ok hbad]
        next h4 => simp at h

/-- Helper: a `done` ledger write in the post-wait tail's trace pins the
whole tail: it succeeded, every finalize command ran, and the write is the
final event. -/
theorem afterWait_done_shape {env : Env} {path old new sf cid p : String}
    (h : Event.writeFile p "done" ∈ (afterWait env path old new sf cid).2) :
    p = sf ∧ (afterWait env path old new sf cid).1 = .ok () ∧
    (afterWait env path old new sf cid).2 =
      ([Event.containerLogs cid] ++ (finalizeCmds path old new).map Event.execCmd) ++
        [Event.writeFile sf "done"] := by
  have hps := afterWait_writes h
  simp only [afterWait] at h
  split at h
  next h1 => simp at h
  next h1 =>
    split at h
    next h2 => simp at h
    next h2 =>
      split at h
      next h3 => simp at h
      next h3 =>
        split at h
        next h4 =>
          have hbad : (runExecer env.execOk (finalizeCmds path old new)).2 = false :=
            Bool.eq_false_iff.mpr h3
          refine ⟨hps.1, ?_, ?_⟩
          · simp only [afterWait]
            rw [if_neg h1, if_neg h2, if_neg h3, if_pos h4]
          · simp only [afterWait]
            rw [if_neg h1, if_neg h2, if_neg h3, if_pos h4, runExecer_ok hbad]
        next h4 => simp at h

/-- Helper: the tail versions of the two shape lemmas, with the container
wait event in front. -/
theorem afterStart_ok_shape {env : Env} {path old new sf cid : String}
    (h : (afterStart env path old new sf cid).1 = .ok ()) :
    (runExecer env.execOk (finalizeCmds path old new)).2 = false ∧
    (afterStart env path old new sf cid).2 =
      ([Event.containerWait cid] ++ [Event.containerLogs cid] ++
        (finalizeCmds path old new).map Event.execCmd) ++
        [Event.writeFile sf "done"] := by
  simp only [afterStart] at h ⊢
  split at h
  · simp at h
  next hne =>
    obtain ⟨hbad, hsh⟩ := afterWait_ok_shape h
    refine ⟨hbad, ?_⟩
    rw [hsh]
    simp

theorem afterStart_done_shape {env : Env} {path old new sf cid p : String}
    (h : Event.writeFile p "done" ∈ (afterStart env path old new sf cid).2) :
    p = sf ∧ (afterStart env path old new sf cid).1 = .ok () ∧
    (afterStart env path old new sf cid).2 =
      ([Event.containerWait cid] ++ [Event.containerLogs cid] ++
        (finalizeCmds path old new).map Event.execCmd) ++
        [Event.writeFile sf "done"] := by
  simp only [afterStart] at h ⊢
  split at h
  next => simp at h
  next hne =>
    simp only [List.mem_append] at h
    rcases h with h | h
    · simp at h
    · obtain ⟨hps, hok, hsh⟩ := afterWait_done_shape h
      refine ⟨hps, hok, ?_⟩
      rw [hsh]
      simp

theorem mapCmds_no_write {cmds : List (List String)} :
    ∀ e ∈ cmds.map Event.execCmd, isWriteEvent e = false := by
  intro e he
  simp only [List.mem_map] at he
  obtain ⟨c, -, rfl⟩ := he
  rfl

theorem singleton_logs_no_write {cid : String} :
    ∀ e ∈ [Event.containerLogs cid], isWriteEvent e = false := by
  intro e he
  simp only [List.mem_singleton] at he
  subst he
  rfl

theorem singleton_wait_no_write {cid : String} :
    ∀ e ∈ [Event.containerWait cid], isWriteEvent e = false := by
  intro e he
  simp only [List.mem_singleton] at he
  subst he
  rfl

/-- Helper: the contents a trace-final single write leaves in a file. -/
theorem ledgerAfter_concat_write (f sf c : String) (X : List Event) :
    ledgerAfter f (X ++ [Event.writeFile sf c]) =
      if sf = f then some c else ledgerAfter f X := by
  rw [ledgerAfter_append]
  rfl

/-- Helper: either a run's trace contains no shelled-out command, or a
ledger write of `started` occurs in it strictly before every shelled-out
command. -/
theorem run_exec_structure (env : Env) (path newVersion : String) :
    (∀ x ∈ (maybeUpgradePostgres env path newVersion).2, isExecEvent x = false) ∨
    ∃ p, PredBefore isExecEvent (Event.writeFile p "started")
      (maybeUpgradePostgres env path newVersion).2 := by
  simp only [maybeUpgradePostgres]
  rcases hpg : env.pgVersionRead with e | bs
  · simp only [hpg]
    left
    intro x hx
    cases x <;> first | rfl | simp at hx
  simp only [hpg]
  rcases hcid : env.containerIDRes with e | cid
  · simp only [hcid]
    left
    intro x hx
    cases x <;> first | rfl | simp at hx
  simp only [hcid]
  cases hdok : env.dockerClientOk
  · simp only [hdok, Bool.not_false, Bool.not_true, Bool.false_eq_true, eq_self_iff_true, if_true, if_false]
    left
    intro x hx
    cases x <;> first | rfl | simp at hx
  simp only [hdok, Bool.not_false, Bool.not_true, Bool.false_eq_true, eq_self_iff_true, if_true, if_false]
  rcases hins : env.inspectRes with e | cinfo
  · simp only [hins]
    left
    intro x hx
    cases x <;> first | rfl | simp at hx
  simp only [hins]
  rcases hmp : hostMountPoint cinfo (pathDir path) with - | hostDataDir
  · simp only [hmp]
    left
    intro x hx
    cases x <;> first | rfl | simp at hx
  simp only [hmp]
  cases hmk : env.mkdirOk
  · simp only [hmk, Bool.not_false, Bool.not_true, Bool.false_eq_true, eq_self_iff_true, if_true, if_false]
    left
    intro x hx
    cases x <;> first | rfl | simp at hx
  simp only [hmk, Bool.not_false, Bool.not_true, Bool.false_eq_true, eq_self_iff_true, if_true, if_false]
  rcases hlv : ledgerValue env.statusRead with e | status
  · simp only [hlv]
    left
    intro x hx
    cases x <;> first | rfl | simp at hx
  simp only [hlv]
  by_cases hst : status = "started"
  · rw [if_pos hst]
    left
    intro x hx
    cases x <;> first | rfl | simp at hx
  rw [if_neg hst]
  by_cases hveq : trimSpace bs = newVersion
  · rw [if_pos hveq]
    left
    intro x hx
    cases x <;> first | rfl | simp at hx
  rw [if_neg hveq]
  cases hws : env.writeStartedOk
  · simp only [hws, Bool.not_false, Bool.not_true, Bool.false_eq_true, eq_self_iff_true, if_true, if_false]
    left
    intro x hx
    cases x <;> first | rfl | simp at hx
  simp only [hws, Bool.not_false, Bool.not_true, Bool.false_eq_true, eq_self_iff_true, if_true, if_false]
  cases hpl : env.pullOk
  · simp only [hpl, Bool.not_false, Bool.not_true, Bool.false_eq_true, eq_self_iff_true, if_true, if_false]
    left
    intro x hx
    cases x <;> first | rfl | simp at hx
  simp only [hpl, Bool.not_false, Bool.not_true, Bool.false_eq_true, eq_self_iff_true, if_true, if_false]
  cases hplc : env.pullCopyOk
  · simp only [hplc, Bool.not_false, Bool.not_true, Bool.false_eq_true, eq_self_iff_true, if_true, if_false]
    left
    intro x hx
    cases x <;> first | rfl | simp at hx
  simp only [hplc, Bool.not_false, Bool.not_true, Bool.false_eq_true, eq_self_iff_true, if_true, if_false]
  rcases hcr : env.createRes with e | cid2
  · simp only [hcr]
    left
    intro x hx
    cases x <;> first | rfl | simp at hx
  simp only [hcr]
  cases hso : env.startOk
  · simp only [hso, Bool.not_false, Bool.not_true, Bool.false_eq_true, eq_self_iff_true, if_true, if_false]
    left
    intro x hx
    cases x <;> first | rfl | simp at hx
  simp only [hso, Bool.not_false, Bool.not_true, Bool.false_eq_true, eq_self_iff_true, if_true, if_false]
  right
  dsimp only
  refine ⟨_, predBefore_append _ (predBefore_append _ (predBefore_append _
    (predBefore_append _ (predBefore_of_clean ?_
      (List.mem_append_right _ (List.mem_singleton_self _))))))⟩
  intro x hx
  cases x <;> first | rfl | simp at hx

/-- Helper: a `done` ledger write in a run's trace pins the run: it
succeeded, the write is the final event, and the four finalize commands all
appear before it, in order. -/
theorem run_done_shape (env : Env) (path newVersion p : String)
    (h : Event.writeFile p "done" ∈ (maybeUpgradePostgres env path newVersion).2) :
    (maybeUpgradePostgres env path newVersion).1 = .ok () ∧
    (maybeUpgradePostgres env path newVersion).2.getLast? =
      some (Event.writeFile p "done") ∧
    ∃ bs, env.pgVersionRead = .ok bs ∧
      List.Sublist ((finalizeCmds path (trimSpace bs) newVersion).map Event.execCmd ++
        [Event.writeFile p "done"])
        (maybeUpgradePostgres env path newVersion).2 := by
  simp only [maybeUpgradePostgres] at h ⊢
  rcases hpg : env.pgVersionRead with e | bs
  · simp only [hpg] at h ⊢
    simp at h
  simp only [hpg] at h ⊢
  rcases hcid : env.containerIDRes with e | cid
  · simp only [hcid] at h ⊢
    simp at h
  simp only [hcid] at h ⊢
  cases hdok : env.dockerClientOk
  · simp only [hdok, Bool.not_false, Bool.not_true, Bool.false_eq_true, eq_self_iff_true, if_true, if_false] at h ⊢
    simp at h
  simp only [hdok, Bool.not_false, Bool.not_true, Bool.false_eq_true, eq_self_iff_true, if_true, if_false] at h ⊢
  rcases hins : env.inspectRes with e | cinfo
  · simp only [hins] at h ⊢
    simp at h
  simp only [hins] at h ⊢
  rcases hmp : hostMountPoint cinfo (pathDir path) with - | hostDataDir
  · simp only [hmp] at h ⊢
    simp at h
  simp only [hmp] at h ⊢
  cases hmk : env.mkdirOk
  · simp only [hmk, Bool.not_false, Bool.not_true, Bool.false_eq_true, eq_self_iff_true, if_true, if_false] at h ⊢
    simp at h
  simp only [hmk, Bool.not_false, Bool.not_true, Bool.false_eq_true, eq_self_iff_true, if_true, if_false] at h ⊢
  rcases hlv : ledgerValue env.statusRead with e | status
  · simp only [hlv] at h ⊢
    simp at h
  simp only [hlv] at h ⊢
  by_cases hst : status = "started"
  · rw [if_pos hst] at h ⊢
    simp at h
  rw [if_neg hst] at h ⊢
  by_cases hveq : trimSpace bs = newVersion
  · rw [if_pos hveq] at h ⊢
    simp at h
  rw [if_neg hveq] at h ⊢
  cases hws : env.writeStartedOk
  · simp only [hws, Bool.not_false, Bool.not_true, Bool.false_eq_true, eq_self_iff_true, if_true, if_false] at h ⊢
    simp at h
  simp only [hws, Bool.not_false, Bool.not_true, Bool.false_eq_true, eq_self_iff_true, if_true, if_false] at h ⊢
  cases hpl : env.pullOk
  · simp only [hpl, Bool.not_false, Bool.not_true, Bool.false_eq_true, eq_self_iff_true, if_true, if_false] at h ⊢
    simp at h
  simp only [hpl, Bool.not_false, Bool.not_true, Bool.false_eq_true, eq_self_iff_true, if_true, if_false] at h ⊢
  cases hplc : env.pullCopyOk
  · simp only [hplc, Bool.not_false, Bool.not_true, Bool.false_eq_true, eq_self_iff_true, if_true, if_false] at h ⊢
    simp at h
  simp only [hplc, Bool.not_false, Bool.not_true, Bool.false_eq_true, eq_self_iff_true, if_true, if_false] at h ⊢
  rcases hcr : env.createRes with e | cid2
  · simp only [hcr] at h ⊢
    simp at h
  simp only [hcr] at h ⊢
  cases hso : env.startOk
  · simp only [hso, Bool.not_false, Bool.not_true, Bool.false_eq_true, eq_self_iff_true, if_true, if_false] at h ⊢
    simp at h
  simp only [hso, Bool.not_false, Bool.not_true, Bool.false_eq_true, eq_self_iff_true, if_true, if_false] at h ⊢
  simp only [List.mem_append] at h
  rcases h with h | h
  · simp at h
  · obtain ⟨hps, hok, hsh⟩ := afterStart_done_shape h
    subst hps
    refine ⟨hok, ?_, ?_⟩
    · rw [hsh]
      simp only [← List.append_assoc, List.getLast?_concat]
    · refine ⟨bs, rfl, ?_⟩
      rw [hsh]
      simp only [← List.append_assoc]
      exact (List.sublist_append_right _ _).append (List.Sublist.refl _)

/-- Helper: a successful run that shelled out at least one command leaves
no file holding `started`: the final ledger write was `done`. -/
theorem run_ok_ledger (env : Env) (path newVersion : String)
    (hok : (maybeUpgradePostgres env path newVersion).1 = .ok ())
    (hex : ∃ e ∈ (maybeUpgradePostgres env path newVersion).2, isExecEvent e = true) :
    ∀ f, ledgerAfter f (maybeUpgradePostgres env path newVersion).2 ≠ some "started" := by
  simp only [maybeUpgradePostgres] at hok hex ⊢
  rcases hpg : env.pgVersionRead with e | bs
  · simp only [hpg] at hok hex ⊢
    simp at hok
  simp only [hpg] at hok hex ⊢
  rcases hcid : env.containerIDRes with e | cid
  · simp only [hcid] at hok hex ⊢
    simp at hok
  simp only [hcid] at hok hex ⊢
  cases hdok : env.dockerClientOk
  · simp only [hdok, Bool.not_false, Bool.not_true, Bool.false_eq_true, eq_self_iff_true, if_true, if_false] at hok hex ⊢
    simp at hok
  simp only [hdok, Bool.not_false, Bool.not_true, Bool.false_eq_true, eq_self_iff_true, if_true, if_false] at hok hex ⊢
  rcases hins : env.inspectRes with e | cinfo
  · simp only [hins] at hok hex ⊢
    simp at hok
  simp only [hins] at hok hex ⊢
  rcases hmp : hostMountPoint cinfo (pathDir path) with - | hostDataDir
  · simp only [hmp] at hok hex ⊢
    simp at hok
  simp only [hmp] at hok hex ⊢
  cases hmk : env.mkdirOk
  · simp only [hmk, Bool.not_false, Bool.not_true, Bool.false_eq_true, eq_self_iff_true, if_true, if_false] at hok hex ⊢
    simp at hok
  simp only [hmk, Bool.not_false, Bool.not_true, Bool.false_eq_true, eq_self_iff_true, if_true, if_false] at hok hex ⊢
  rcases hlv : ledgerValue env.statusRead with e | status
  · simp only [hlv] at hok hex ⊢
    simp at hok
  simp only [hlv] at hok hex ⊢
  by_cases hst : status = "started"
  · rw [if_pos hst] at hok hex ⊢
    simp at hok
  rw [if_neg hst] at hok hex ⊢
  by_cases hveq : trimSpace bs = newVersion
  · rw [if_pos hveq] at hok hex ⊢
    simp [isExecEvent] at hex
  rw [if_neg hveq] at hok hex ⊢
  cases hws : env.writeStartedOk
  · simp only [hws, Bool.not_false, Bool.not_true, Bool.false_eq_true, eq_self_iff_true, if_true, if_false] at hok hex ⊢
    simp at hok
  simp only [hws, Bool.not_false, Bool.not_true, Bool.false_eq_true, eq_self_iff_true, if_true, if_false] at hok hex ⊢
  cases hpl : env.pullOk
  · simp only [hpl, Bool.not_false, Bool.not_true, Bool.false_eq_true, eq_self_iff_true, if_true, if_false] at hok hex ⊢
    simp at hok
  simp only [hpl, Bool.not_false, Bool.not_true, Bool.false_eq_true, eq_self_iff_true, if_true, if_false] at hok hex ⊢
  cases hplc : env.pullCopyOk
  · simp only [hplc, Bool.not_false, Bool.not_true, Bool.false_eq_true, eq_self_iff_true, if_true, if_false] at hok hex ⊢
    simp at hok
  simp only [hplc, Bool.not_false, Bool.not_true, Bool.false_eq_true, eq_self_iff_true, if_true, if_false] at hok hex ⊢
  rcases hcr : env.createRes with e | cid2
  · simp only [hcr] at hok hex ⊢
    simp at hok
  simp only [hcr] at hok hex ⊢
  cases hso : env.startOk
  · simp only [hso, Bool.not_false, Bool.not_true, Bool.false_eq_true, eq_self_iff_true, if_true, if_false] at hok hex ⊢
    simp at hok
  simp only [hso, Bool.not_false, Bool.not_true, Bool.false_eq_true, eq_self_iff_true, if_true, if_false] at hok hex ⊢
  obtain ⟨hbad, hsh⟩ := afterStart_ok_shape hok
  intro f
  rw [hsh]
  simp only [← List.append_assoc]
  rw [ledgerAfter_concat_write]
  split
  · simp
  · rw [ledgerAfter_no_write mapCmds_no_write,
      ledgerAfter_no_write singleton_logs_no_write,
      ledgerAfter_no_write singleton_wait_no_write]
    next hsf =>
    simp [ledgerAfter, hsf]

/-- Is the event a mutation of persistent or container state: a file
write, a shelled-out command, or a helper-container operation? -/
def mutates (e : Event) : Bool :=
  isWriteEvent e || isExecEvent e || isContainerOp e

/-- Helper: every run's first event is the read of the version marker. -/
theorem run_head (env : Env) (path newVersion : String) :
    (maybeUpgradePostgres env path newVersion).2.head? =
      some (Event.readFile (joinPath path "PG_VERSION")) := by
  simp only [maybeUpgradePostgres]
  rcases hpg : env.pgVersionRead with e | bs
  · simp only [hpg]
    rfl
  simp only [hpg]
  rcases hcid : env.containerIDRes with e | cid
  · simp only [hcid]
    rfl
  simp only [hcid]
  cases hdok : env.dockerClientOk
  · simp only [hdok, Bool.not_false, Bool.not_true, Bool.false_eq_true, eq_self_iff_true, if_true, if_false]
    rfl
  simp only [hdok, Bool.not_false, Bool.not_true, Bool.false_eq_true, eq_self_iff_true, if_true, if_false]
  rcases hins : env.inspectRes with e | cinfo
  · simp only [hins]
    rfl
  simp only [hins]
  rcases hmp : hostMountPoint cinfo (pathDir path) with _ | hostDataDir
  · simp only [hmp]
    rfl
  simp only [hmp]
  cases hmk : env.mkdirOk
  · simp only [hmk, Bool.not_false, Bool.not_true, Bool.false_eq_true, eq_self_iff_true, if_true, if_false]
    rfl
  simp only [hmk, Bool.not_false, Bool.not_true, Bool.false_eq_true, eq_self_iff_true, if_true, if_false]
  rcases hlv : ledgerValue env.statusRead with e | status
  · simp only [hlv]
    rfl
  simp only [hlv]
  by_cases hst : status = "started"
  · rw [if_pos hst]
    rfl
  rw [if_neg hst]
  by_cases hveq : trimSpace bs = newVersion
  · rw [if_pos hveq]
    rfl
  rw [if_neg hveq]
  cases hws : env.writeStartedOk
  · simp only [hws, Bool.not_false, Bool.not_true, Bool.false_eq_true, eq_self_iff_true, if_true, if_false]
    rfl
  simp only [hws, Bool.not_false, Bool.not_true, Bool.false_eq_true, eq_self_iff_true, if_true, if_false]
  cases hpl : env.pullOk
  · simp only [hpl, Bool.not_false, Bool.not_true, Bool.false_eq_true, eq_self_iff_true, if_true, if_false]
    rfl
  simp only [hpl, Bool.not_false, Bool.not_true, Bool.false_eq_true, eq_self_iff_true, if_true, if_false]
  cases hplc : env.pullCopyOk
  · simp only [hplc, Bool.not_false, Bool.not_true, Bool.false_eq_true, eq_self_iff_true, if_true, if_false]
    rfl
  simp only [hplc, Bool.not_false, Bool.not_true, Bool.false_eq_true, eq_self_iff_true, if_true, if_false]
  rcases hcr : env.createRes with e | cid2
  · simp only [hcr]
    rfl
  simp only [hcr]
  cases hso : env.startOk
  · simp only [hso, Bool.not_false, Bool.not_true, Bool.false_eq_true, eq_self_iff_true, if_true, if_false]
    rfl
  simp only [hso, Bool.not_false, Bool.not_true, Bool.false_eq_true, eq_self_iff_true, if_true, if_false]
  rfl

/-- Helper: either a run's trace mutates nothing, or the status-file read
occurs in it strictly before every mutation. -/
theorem run_mutation_structure (env : Env) (path newVersion : String) :
    (∀ x ∈ (maybeUpgradePostgres env path newVersion).2, mutates x = false) ∨
    ∃ bs, env.pgVersionRead = .ok bs ∧
      PredBefore mutates (Event.readFile (statusFileOf path (trimSpace bs) newVersion))
        (maybeUpgradePostgres env path newVersion).2 := by
  simp only [maybeUpgradePostgres]
  rcases hpg : env.pgVersionRead with e | bs
  · simp only [hpg]
    left
    intro x hx
    cases x <;> first | rfl | simp at hx
  simp only [hpg]
  rcases hcid : env.containerIDRes with e | cid
  · simp only [hcid]
    left
    intro x hx
    cases x <;> first | rfl | simp at hx
  simp only [hcid]
  cases hdok : env.dockerClientOk
  · simp only [hdok, Bool.not_false, Bool.not_true, Bool.false_eq_true, eq_self_iff_true, if_true, if_false]
    left
    intro x hx
    cases x <;> first | rfl | simp at hx
  simp only [hdok, Bool.not_false, Bool.not_true, Bool.false_eq_true, eq_self_iff_true, if_true, if_false]
  rcases hins : env.inspectRes with e | cinfo
  · simp only [hins]
    left
    intro x hx
    cases x <;> first | rfl | simp at hx
  simp only [hins]
  rcases hmp : hostMountPoint cinfo (pathDir path) with _ | hostDataDir
  · simp only [hmp]
    left
    intro x hx
    cases x <;> first | rfl | simp at hx
  simp only [hmp]
  cases hmk : env.mkdirOk
  · simp only [hmk, Bool.not_false, Bool.not_true, Bool.false_eq_true, eq_self_iff_true, if_true, if_false]
    left
    intro x hx
    cases x <;> first | rfl | simp at hx
  simp only [hmk, Bool.not_false, Bool.not_true, Bool.false_eq_true, eq_self_iff_true, if_true, if_false]
  rcases hlv : ledgerValue env.statusRead with e | status
  · simp only [hlv]
    left
    intro x hx
    cases x <;> first | rfl | simp at hx
  simp only [hlv]
  by_cases hst : status = "started"
  · rw [if_pos hst]
    left
    intro x hx
    cases x <;> first | rfl | simp at hx
  rw [if_neg hst]
  by_cases hveq : trimSpace bs = newVersion
  · rw [if_pos hveq]
    left
    intro x hx
    cases x <;> first | rfl | simp at hx
  rw [if_neg hveq]
  cases hws : env.writeStartedOk
  · simp only [hws, Bool.not_false, Bool.not_true, Bool.false_eq_true, eq_self_iff_true, if_true, if_false]
    left
    intro x hx
    cases x <;> first | rfl | simp at hx
  simp only [hws, Bool.not_false, Bool.not_true, Bool.false_eq_true, eq_self_iff_true, if_true, if_false]
  cases hpl : env.pullOk
  · simp only [hpl, Bool.not_false, Bool.not_true, Bool.false_eq_true, eq_self_iff_true, if_true, if_false]
    right
    refine ⟨bs, rfl, predBefore_append _ (predBefore_append _ (predBefore_append _ (predBefore_of_clean ?_ (List.mem_append_right _ (List.mem_singleton_self _)))))⟩
    intro x hx
    cases x <;> first | rfl | simp at hx
  simp only [hpl, Bool.not_false, Bool.not_true, Bool.false_eq_true, eq_self_iff_true, if_true, if_false]
  cases hplc : env.pullCopyOk
  · simp only [hplc, Bool.not_false, Bool.not_true, Bool.false_eq_true, eq_self_iff_true, if_true, if_false]
    right
    refine ⟨bs, rfl, predBefore_append _ (predBefore_append _ (predBefore_append _ (predBefore_of_clean ?_ (List.mem_append_right _ (List.mem_singleton_self _)))))⟩
    intro x hx
    cases x <;> first | rfl | simp at hx
  simp only [hplc, Bool.not_false, Bool.not_true, Bool.false_eq_true, eq_self_iff_true, if_true, if_false]
  rcases hcr : env.createRes with e | cid2
  · simp only [hcr]
    right
    refine ⟨bs, rfl, predBefore_append _ (predBefore_append _ (predBefore_append _ (predBefore_append _ (predBefore_of_clean ?_ (List.mem_append_right _ (List.mem_singleton_self _))))))⟩
    intro x hx
    cases x <;> first | rfl | simp at hx
  simp only [hcr]
  cases hso : env.startOk
  · simp only [hso, Bool.not_false, Bool.not_true, Bool.false_eq_true, eq_self_iff_true, if_true, if_false]
    right
    refine ⟨bs, rfl, predBefore_append _ (predBefore_append _ (predBefore_append _ (predBefore_append _ (predBefore_append _ (predBefore_of_clean ?_ (List.mem_append_right _ (List.mem_singleton_self _)))))))⟩
    intro x hx
    cases x <;> first | rfl | simp at hx
  simp only [hso, Bool.not_false, Bool.not_true, Bool.false_eq_true, eq_self_iff_true, if_true, if_false]
  right
  refine ⟨bs, rfl, predBefore_append _ (predBefore_append _ (predBefore_append _ (predBefore_append _ (predBefore_append _ (predBefore_append _ (predBefore_of_clean ?_ (List.mem_append_right _ (List.mem_singleton_self _))))))))⟩
  intro x hx
  cases x <;> first | rfl | simp at hx

/-- Helper: once the run has reached the gate, the scratch-directory
creation and the status-file read both sit at the head of the trace, in
that order, whatever happens afterwards. -/
theorem mkdir_before_gate (env : Env) (path newVersion bs cid host : String)
    (cinfo : ContainerInfo)
    (h1 : env.pgVersionRead = .ok bs)
    (h2 : env.containerIDRes = .ok cid)
    (h3 : env.dockerClientOk = true)
    (h4 : env.inspectRes = .ok cinfo)
    (h5 : hostMountPoint cinfo (pathDir path) = some host)
    (h6 : env.mkdirOk = true) :
    List.Sublist
      [Event.mkdirAll (upgradeDirOf path (trimSpace bs) newVersion),
        Event.readFile (statusFileOf path (trimSpace bs) newVersion)]
      (maybeUpgradePostgres env path newVersion).2 := by
  simp only [maybeUpgradePostgres, h1, h2, h3, h4, h5, h6, Bool.not_true,
    Bool.false_eq_true, eq_self_iff_true, if_true, if_false]
  rcases hlv : ledgerValue env.statusRead with e | status
  · simp only [hlv]
    exact List.Sublist.cons _ (List.Sublist.cons _ (List.Sublist.cons₂ _ (List.Sublist.cons₂ _ (List.nil_sublist _))))
  simp only [hlv]
  by_cases hst : status = "started"
  · rw [if_pos hst]
    exact List.Sublist.cons _ (List.Sublist.cons _ (List.Sublist.cons₂ _ (List.Sublist.cons₂ _ (List.nil_sublist _))))
  rw [if_neg hst]
  by_cases hveq : trimSpace bs = newVersion
  · rw [if_pos hveq]
    exact List.Sublist.cons _ (List.Sublist.cons _ (List.Sublist.cons₂ _ (List.Sublist.cons₂ _ (List.nil_sublist _))))
  rw [if_neg hveq]
  cases hws : env.writeStartedOk
  · simp only [hws, Bool.not_false, Bool.not_true, Bool.false_eq_true, eq_self_iff_true, if_true, if_false]
    exact List.Sublist.cons _ (List.Sublist.cons _ (List.Sublist.cons₂ _ (List.Sublist.cons₂ _ (List.nil_sublist _))))
  simp only [hws, Bool.not_false, Bool.not_true, Bool.false_eq_true, eq_self_iff_true, if_true, if_false]
  cases hpl : env.pullOk
  · simp only [hpl, Bool.not_false, Bool.not_true, Bool.false_eq_true, eq_self_iff_true, if_true, if_false]
    exact List.Sublist.cons _ (List.Sublist.cons _ (List.Sublist.cons₂ _ (List.Sublist.cons₂ _ (List.nil_sublist _))))
  simp only [hpl, Bool.not_false, Bool.not_true, Bool.false_eq_true, eq_self_iff_true, if_true, if_false]
  cases hplc : env.pullCopyOk
  · simp only [hplc, Bool.not_false, Bool.not_true, Bool.false_eq_true, eq_self_iff_true, if_true, if_false]
    exact List.Sublist.cons _ (List.Sublist.cons _ (List.Sublist.cons₂ _ (List.Sublist.cons₂ _ (List.nil_sublist _))))
  simp only [hplc, Bool.not_false, Bool.not_true, Bool.false_eq_true, eq_self_iff_true, if_true, if_false]
  rcases hcr : env.createRes with e | cid2
  · simp only [hcr]
    exact List.Sublist.cons _ (List.Sublist.cons _ (List.Sublist.cons₂ _ (List.Sublist.cons₂ _ (List.nil_sublist _))))
  simp only [hcr]
  cases hso : env.startOk
  · simp only [hso, Bool.not_false, Bool.not_true, Bool.false_eq_true, eq_self_iff_true, if_true, if_false]
    exact List.Sublist.cons _ (List.Sublist.cons _ (List.Sublist.cons₂ _ (List.Sublist.cons₂ _ (List.nil_sublist _))))
  simp only [hso, Bool.not_false, Bool.not_true, Bool.false_eq_true, eq_self_iff_true, if_true, if_false]
  exact List.Sublist.cons _ (List.Sublist.cons _ (List.Sublist.cons₂ _ (List.Sublist.cons₂ _ (List.nil_sublist _))))

/-- C3: along every run the `started` ledger write occurs strictly before
any shelled-out command (so before any rename or other modification of the
data directory); a `done` ledger write happens only as the final event of a
successful run, after the two renames, the ownership fix and the
optimization script all ran, in order; and no successful run that shelled
out a command leaves any file reading `started`. -/
theorem started_before_swap_done_after (env : Env) (path newVersion : String) :
    (∀ pre e post, (maybeUpgradePostgres env path newVersion).2 = pre ++ e :: post →
      isExecEvent e = true → ∃ p, Event.writeFile p "started" ∈ pre) ∧
    (∀ p, Event.writeFile p "done" ∈ (maybeUpgradePostgres env path newVersion).2 →
      (maybeUpgradePostgres env path newVersion).1 = .ok () ∧
      (maybeUpgradePostgres env path newVersion).2.getLast? =
        some (Event.writeFile p "done") ∧
      ∃ bs, env.pgVersionRead = .ok bs ∧
        List.Sublist ((finalizeCmds path (trimSpace bs) newVersion).map Event.execCmd ++
          [Event.writeFile p "done"]) (maybeUpgradePostgres env path newVersion).2) ∧
    ((maybeUpgradePostgres env path newVersion).1 = .ok () →
      (∃ e ∈ (maybeUpgradePostgres env path newVersion).2, isExecEvent e = true) →
      ∀ f, ledgerAfter f (maybeUpgradePostgres env path newVersion).2 ≠ some "started") := by
  refine ⟨?_, ?_, run_ok_ledger env path newVersion⟩
  · intro pre e post heq hpe
    rcases run_exec_structure env path newVersion with hcl | ⟨p, hpb, hmem⟩
    · have hmem2 : e ∈ (maybeUpgradePostgres env path newVersion).2 := by
        rw [heq]
        exact List.mem_append_right _ (List.mem_cons_self ..)
      rw [hcl e hmem2] at hpe
      cases hpe
    · exact ⟨p, hpb pre e post heq hpe⟩
  · intro p h
    exact run_done_shape env path newVersion p h

/-- C3 witness: the done-write conjunct applied to the successful concrete
run. -/
theorem started_before_swap_done_after_witness :
    (maybeUpgradePostgres envAll "/d/pg" "11").1 = .ok () ∧
    (maybeUpgradePostgres envAll "/d/pg" "11").2.getLast? =
      some (Event.writeFile "/d/.9.6-to-11-upgrade/status" "done") ∧
    ∃ bs, envAll.pgVersionRead = .ok bs ∧
      List.Sublist ((finalizeCmds "/d/pg" (trimSpace bs) "11").map Event.execCmd ++
        [Event.writeFile "/d/.9.6-to-11-upgrade/status" "done"])
        (maybeUpgradePostgres envAll "/d/pg" "11").2 :=
  (started_before_swap_done_after envAll "/d/pg" "11").2.1
    "/d/.9.6-to-11-upgrade/status" (by decide)

/-- C6 counterexample: on a concrete successful run the version-marker read
is strictly before the status-file read, and the scratch-directory creation
is also strictly before the status-file read: the recovery gate is not
consulted first, contrary to the claim. -/
theorem gate_not_first_counterexample :
    Event.readFile "/d/pg/PG_VERSION" ∈ (maybeUpgradePostgres envAll "/d/pg" "11").2 ∧
    Event.mkdirAll "/d/.9.6-to-11-upgrade" ∈ (maybeUpgradePostgres envAll "/d/pg" "11").2 ∧
    Event.readFile "/d/.9.6-to-11-upgrade/status" ∈
      (maybeUpgradePostgres envAll "/d/pg" "11").2 ∧
    ¬ (maybeUpgradePostgres envAll "/d/pg" "11").2.indexOf
        (Event.readFile "/d/.9.6-to-11-upgrade/status") <
      (maybeUpgradePostgres envAll "/d/pg" "11").2.indexOf
        (Event.readFile "/d/pg/PG_VERSION") ∧
    ¬ (maybeUpgradePostgres envAll "/d/pg" "11").2.indexOf
        (Event.readFile "/d/.9.6-to-11-upgrade/status") <
      (maybeUpgradePostgres envAll "/d/pg" "11").2.indexOf
        (Event.mkdirAll "/d/.9.6-to-11-upgrade") := by
  decide

/-- C6 amended: the version marker is read first on every run and the
scratch upgrade directory is created before the gate's status-file read;
the gate is nevertheless consulted before any mutation: every file write,
shelled-out command or container operation is strictly preceded by the
status-file read. -/
theorem version_read_first_gate_before_mutations (env : Env) (path newVersion : String) :
    ((maybeUpgradePostgres env path newVersion).2.head? =
      some (Event.readFile (joinPath path "PG_VERSION"))) ∧
    (∀ pre e post, (maybeUpgradePostgres env path newVersion).2 = pre ++ e :: post →
      mutates e = true →
      ∃ bs, env.pgVersionRead = .ok bs ∧
        Event.readFile (statusFileOf path (trimSpace bs) newVersion) ∈ pre) ∧
    (∀ (bs cid host : String) (cinfo : ContainerInfo), env.pgVersionRead = .ok bs →
      env.containerIDRes = .ok cid → env.dockerClientOk = true →
      env.inspectRes = .ok cinfo → hostMountPoint cinfo (pathDir path) = some host →
      env.mkdirOk = true →
      List.Sublist
        [Event.mkdirAll (upgradeDirOf path (trimSpace bs) newVersion),
          Event.readFile (statusFileOf path (trimSpace bs) newVersion)]
        (maybeUpgradePostgres env path newVersion).2) := by
  refine ⟨run_head env path newVersion, ?_, ?_⟩
  · intro pre e post heq hpe
    rcases run_mutation_structure env path newVersion with hcl | ⟨bs, hbs, hpb, hmem⟩
    · have hmem2 : e ∈ (maybeUpgradePostgres env path newVersion).2 := by
        rw [heq]
        exact List.mem_append_right _ (List.mem_cons_self ..)
      rw [hcl e hmem2] at hpe
      cases hpe
    · exact ⟨bs, hbs, hpb pre e post heq hpe⟩
  · intro bs cid host cinfo h1 h2 h3 h4 h5 h6
    exact mkdir_before_gate env path newVersion bs cid host cinfo h1 h2 h3 h4 h5 h6

/-- C6 amended witness: the gate-position conjunct applied to the concrete
successful run. -/
theorem version_read_first_gate_before_mutations_witness :
    List.Sublist
      [Event.mkdirAll (upgradeDirOf "/d/pg" (trimSpace "9.6\n") "11"),
        Event.readFile (statusFileOf "/d/pg" (trimSpace "9.6\n") "11")]
      (maybeUpgradePostgres envAll "/d/pg" "11").2 :=
  (version_read_first_gate_before_mutations envAll "/d/pg" "11").2.2
    "9.6\n" "c0" "/h" ⟨["/h:/d"], []⟩ rfl rfl rfl rfl (by decide) rfl

end Postgres
